import Mathlib

/-!
Verification of the mindbender steganography pipeline.

Shallow embedding of the Rust sources:
  - `src/steganography/util.rs` (capacity oracle)
  - `src/steganography/lsb.rs` (LSB codec)
  - `src/cryptography/util.rs` (key derivation)
  - `src/cryptography/aes.rs` (AEAD envelope, with AES-256-GCM itself
    abstracted as a cipher model, since the cipher is an external crate)
  - `src/core/operations.rs` (pipeline orchestrator; zlib compression from
    `src/core/compression.rs` is abstracted as a compressor model, since the
    DEFLATE implementation is an external crate)

Bytes are modelled as `Nat` (with `< 256` bounds carried as hypotheses where
they matter); Rust strings are modelled as their UTF-8 byte lists; fallible
functions return `Except` and functions that can panic return `RRes`.
-/

namespace Mindbender

/-- Model of `ApplicationError` from `src/error.rs` (the payload of the
variants that carry an `io::Error` or `image::ImageError` is dropped). -/
inductive ApplicationError where
  | InvalidPathError : String → ApplicationError
  | ImageError : ApplicationError
  | IoError : ApplicationError
  | EncryptionError : String → ApplicationError
  | DecryptionError : String → ApplicationError
  | EncodingError : String → ApplicationError
  | DecodingError : String → ApplicationError
deriving DecidableEq

/-- Result of a Rust computation that may return `Ok`, return `Err`,
or panic. -/
inductive RRes (α : Type) where
  | ok : α → RRes α
  | err : ApplicationError → RRes α
  | panicked : RRes α
deriving DecidableEq

/-- Model of `image::RgbImage`: a row-major pixel buffer with three channel
bytes (R, G, B) per pixel.  `samples` is the flat channel-byte buffer in the
order returned by `as_flat_samples()` / `pixels()`: index
`(y * width + x) * 3 + channel`. -/
structure RgbImage where
  width : Nat
  height : Nat
  samples : List Nat
deriving DecidableEq

/-- Well-formedness of an image buffer: the flat sample buffer has exactly
`width * height * 3` entries and every channel byte is a `u8`. -/
def RgbImage.Wf (img : RgbImage) : Prop :=
  img.samples.length = img.width * img.height * 3 ∧ ∀ b ∈ img.samples, b < 256

/-- Model of `is_sufficient_capacity` from `src/steganography/util.rs`:
`(text.len() + DELIMITER_SIZE) * BITS_PER_CHAR <= samples.len()` with
`BITS_PER_CHAR = 8`, `DELIMITER_SIZE = 1`.  `text` is the UTF-8 byte list of
the Rust `&str` argument (so `text.length` is `text.len()`). -/
def isSufficientCapacity (text : List Nat) (image : RgbImage) : Bool :=
  decide ((text.length + 1) * 8 ≤ image.samples.length)

/-- The eight bits of a byte, most significant first: the Rust iterator
`(0..8).rev().map(|i| (byte >> i) & 1)` from `lsb::encode`. -/
def bitsOfByte (byte : Nat) : List Nat :=
  ((List.range 8).reverse).map fun i => (byte >>> i) &&& 1

/-- Bit stream of a byte string, as built by `lsb::encode`
(`flat_map` over the bytes). -/
def bitsOfBytes (bytes : List Nat) : List Nat :=
  bytes.flatMap bitsOfByte

/-- The flat sample index written by iteration `i` of the loop in
`lsb::encode`: `pixel_index = i / 3`, `channel_index = i % 3`,
`x = pixel_index % width`, `y = pixel_index / width`, and pixel `(x, y)`
channel `c` lives at flat index `(y * width + x) * 3 + c`. -/
def writeIndex (width i : Nat) : Nat :=
  ((i / 3 / width) * width + i / 3 % width) * 3 + i % 3

/-- Model of `lsb::encode` from `src/steganography/lsb.rs`.  It appends the
delimiter byte `0` to `data`, checks `is_sufficient_capacity` on the
delimited data (note: that function adds one more delimiter-byte allowance
internally), and then writes each bit into the least significant bit of the
corresponding channel byte of a clone of the image.  `(c & !1) | bit` on a
`u8` is `(c &&& 0xFE) ||| bit`. -/
def lsbEncode (data : List Nat) (image : RgbImage) : Except ApplicationError RgbImage :=
  let dataWithDelimiter := data ++ [0]
  if isSufficientCapacity dataWithDelimiter image then
    let bits := bitsOfBytes dataWithDelimiter
    let samples := bits.enum.foldl
      (fun s p =>
        s.set (writeIndex image.width p.1)
          ((s.getD (writeIndex image.width p.1) 0 &&& 0xFE) ||| p.2))
      image.samples
    .ok ⟨image.width, image.height, samples⟩
  else
    .error (.EncodingError ("Image too small to encode data"))

/-- The chunking `bits.chunks(8)` from `lsb::decode`: consecutive slices of
eight bits, the last chunk possibly shorter. -/
def chunks8 : List Nat → List (List Nat)
  | [] => []
  | [b1] => [[b1]]
  | [b1, b2] => [[b1, b2]]
  | [b1, b2, b3] => [[b1, b2, b3]]
  | [b1, b2, b3, b4] => [[b1, b2, b3, b4]]
  | [b1, b2, b3, b4, b5] => [[b1, b2, b3, b4, b5]]
  | [b1, b2, b3, b4, b5, b6] => [[b1, b2, b3, b4, b5, b6]]
  | [b1, b2, b3, b4, b5, b6, b7] => [[b1, b2, b3, b4, b5, b6, b7]]
  | b1 :: b2 :: b3 :: b4 :: b5 :: b6 :: b7 :: b8 :: rest =>
    [b1, b2, b3, b4, b5, b6, b7, b8] :: chunks8 rest

/-- Assembling one byte from a chunk of bits, most significant bit first:
`chunk.iter().fold(0, |acc, &bit| (acc << 1) | bit)`. -/
def byteFold (chunk : List Nat) : Nat :=
  chunk.foldl (fun acc bit => (acc <<< 1) ||| bit) 0

/-- The accumulation loop of `lsb::decode`: assemble a byte from each chunk
and stop (without recording it) at the first assembled byte equal to `0`. -/
def collectBytes : List (List Nat) → List Nat
  | [] => []
  | chunk :: rest =>
    let byte := byteFold chunk
    if byte = 0 then [] else byte :: collectBytes rest

/-- True exactly when `c` is a UTF-8 continuation byte. -/
def isCont (c : Nat) : Bool :=
  decide (0x80 ≤ c ∧ c ≤ 0xBF)

/-- Model of the validity check performed by Rust `String::from_utf8`:
standard UTF-8 acceptance (RFC 3629), rejecting overlong forms, surrogates
and code points above U+10FFFF. -/
def validUtf8 : List Nat → Bool
  | [] => true
  | b :: rest =>
    if b < 0x80 then validUtf8 rest
    else if 0xC2 ≤ b ∧ b ≤ 0xDF then
      match rest with
      | c1 :: r => isCont c1 && validUtf8 r
      | [] => false
    else if b = 0xE0 then
      match rest with
      | c1 :: c2 :: r => decide (0xA0 ≤ c1 ∧ c1 ≤ 0xBF) && isCont c2 && validUtf8 r
      | _ => false
    else if (0xE1 ≤ b ∧ b ≤ 0xEC) ∨ (0xEE ≤ b ∧ b ≤ 0xEF) then
      match rest with
      | c1 :: c2 :: r => isCont c1 && isCont c2 && validUtf8 r
      | _ => false
    else if b = 0xED then
      match rest with
      | c1 :: c2 :: r => decide (0x80 ≤ c1 ∧ c1 ≤ 0x9F) && isCont c2 && validUtf8 r
      | _ => false
    else if b = 0xF0 then
      match rest with
      | c1 :: c2 :: c3 :: r =>
        decide (0x90 ≤ c1 ∧ c1 ≤ 0xBF) && isCont c2 && isCont c3 && validUtf8 r
      | _ => false
    else if 0xF1 ≤ b ∧ b ≤ 0xF3 then
      match rest with
      | c1 :: c2 :: c3 :: r => isCont c1 && isCont c2 && isCont c3 && validUtf8 r
      | _ => false
    else if b = 0xF4 then
      match rest with
      | c1 :: c2 :: c3 :: r =>
        decide (0x80 ≤ c1 ∧ c1 ≤ 0x8F) && isCont c2 && isCont c3 && validUtf8 r
      | _ => false
    else false

/-- Model of `lsb::decode` from `src/steganography/lsb.rs`: collect the least
significant bit of every channel byte in buffer order, assemble bytes eight
bits at a time stopping at the first zero byte, then validate the result as
UTF-8 (`String::from_utf8`); the result is the byte list of the returned
`String`. -/
def lsbDecode (image : RgbImage) : Except ApplicationError (List Nat) :=
  let bits := image.samples.map (fun c => c &&& 1)
  let bytes := collectBytes (chunks8 bits)
  if validUtf8 bytes then .ok bytes
  else .error (.DecodingError ("Failed to decode message"))

/-- Base64 value of one six-bit group, standard alphabet
(`A-Z`, `a-z`, `0-9`, `+`, `/`), as the ASCII byte of the output char. -/
def b64e (s : Nat) : Nat :=
  if s < 26 then 65 + s
  else if s < 52 then 97 + (s - 26)
  else if s < 62 then 48 + (s - 52)
  else if s = 62 then 43
  else 47

/-- Inverse of the standard base64 alphabet on ASCII bytes; `none` for any
byte outside the alphabet (padding `=` is handled by the group decoder). -/
def b64d (c : Nat) : Option Nat :=
  if 65 ≤ c ∧ c ≤ 90 then some (c - 65)
  else if 97 ≤ c ∧ c ≤ 122 then some (c - 97 + 26)
  else if 48 ≤ c ∧ c ≤ 57 then some (c - 48 + 52)
  else if c = 43 then some 62
  else if c = 47 then some 63
  else none

/-- Model of `base64::engine::general_purpose::STANDARD.encode`: three input
bytes become four alphabet bytes; a final group of one or two bytes is padded
with `=` (ASCII 61). -/
def b64encode : List Nat → List Nat
  | [] => []
  | [b1] => [b64e (b1 / 4), b64e (b1 % 4 * 16), 61, 61]
  | [b1, b2] => [b64e (b1 / 4), b64e (b1 % 4 * 16 + b2 / 16), b64e (b2 % 16 * 4), 61]
  | b1 :: b2 :: b3 :: rest =>
    b64e (b1 / 4) :: b64e (b1 % 4 * 16 + b2 / 16) ::
      b64e (b2 % 16 * 4 + b3 / 64) :: b64e (b3 % 64) :: b64encode rest

/-- Model of `base64::engine::general_purpose::STANDARD.decode`: strict
decoding in four-byte groups, requiring canonical padding, a length that is a
multiple of four, zero trailing bits, and only alphabet bytes; any violation
yields `none`. -/
def b64decode : List Nat → Option (List Nat)
  | [] => some []
  | c1 :: c2 :: c3 :: c4 :: rest =>
    match b64d c1, b64d c2 with
    | some s1, some s2 =>
      if c3 = 61 then
        if c4 = 61 ∧ rest = [] then
          if s2 % 16 = 0 then some [s1 * 4 + s2 / 16] else none
        else none
      else
        match b64d c3 with
        | some s3 =>
          if c4 = 61 then
            if rest = [] then
              if s3 % 4 = 0 then some [s1 * 4 + s2 / 16, s2 % 16 * 16 + s3 / 4]
              else none
            else none
          else
            match b64d c4 with
            | some s4 =>
              match b64decode rest with
              | some bs =>
                some ((s1 * 4 + s2 / 16) :: (s2 % 16 * 16 + s3 / 4) :: (s3 % 4 * 64 + s4) :: bs)
              | none => none
            | none => none
        | none => none
    | _, _ => none
  | _ => none

/-- Model of `key_to_bytes` from `src/cryptography/util.rs`: a passphrase of
more than 32 bytes is rejected with an `EncryptionError` (whose message
interpolates the actual length); otherwise the passphrase bytes are copied
into a zero-initialised 32-byte array. -/
def keyToBytes (key : List Nat) : Except ApplicationError (List Nat) :=
  if 32 < key.length then
    .error (.EncryptionError ("Key length exceeds maximum of 32 bytes"))
  else
    .ok (key ++ List.replicate (32 - key.length) 0)

/-- Abstract model of the AES-256-GCM primitive supplied by the external
`aes_gcm` crate: deterministic encryption and fallible decryption as
functions of key bytes, nonce bytes and data bytes, together with the two
facts about the crate that the pipeline relies on (ciphertexts are byte
strings, and decryption under the encryption key and nonce succeeds). -/
structure GcmModel where
  enc : List Nat → List Nat → List Nat → List Nat
  dec : List Nat → List Nat → List Nat → Option (List Nat)
  enc_byte_lt : ∀ k n p, (∀ b ∈ p, b < 256) → ∀ b ∈ enc k n p, b < 256
  dec_enc : ∀ k n p, dec k n (enc k n p) = some p

/-- Abstract model of the zlib compressor supplied by the external `flate2`
crate. -/
structure ZlibModel where
  compress : List Nat → List Nat
  decompress : List Nat → Option (List Nat)

/-- Model of `aes::encrypt` from `src/cryptography/aes.rs` with the random
nonce made an explicit argument: encrypt, prepend the nonce, base64-encode.
The result is the byte list of the returned `String`. -/
def aesEncrypt (gcm : GcmModel) (nonce : List Nat) (data : List Nat)
    (key : List Nat) : List Nat :=
  b64encode (nonce ++ gcm.enc key nonce data)

/-- Model of `aes::decrypt` from `src/cryptography/aes.rs`: base64-decode
(failure is a `DecryptionError`), then `split_at(12)` — which panics when the
decoded blob is shorter than 12 bytes — then AES-256-GCM decryption (failure
is a `DecryptionError`), then `String::from_utf8` validation. -/
def aesDecrypt (gcm : GcmModel) (encodedData : List Nat)
    (key : List Nat) : RRes (List Nat) :=
  match b64decode encodedData with
  | none => .err (.DecryptionError ("Failed to decode base64 data"))
  | some encryptedData =>
    if encryptedData.length < 12 then .panicked
    else
      let nonce := encryptedData.take 12
      let ciphertext := encryptedData.drop 12
      match gcm.dec key nonce ciphertext with
      | none => .err (.DecryptionError ("Decryption failed"))
      | some decryptedData =>
        if validUtf8 decryptedData then .ok decryptedData
        else .err (.DecryptionError ("Invalid UTF-8 sequence in decrypted data"))

/-- The byte list of the compression marker string used by
`core::operations`: the UTF-8 bytes of the literal text COMPRESSED followed
by a colon. -/
def markerBytes : List Nat := [67, 79, 77, 80, 82, 69, 83, 83, 69, 68, 58]

/-- Model of `core::operations::encode` from `src/core/operations.rs`, after
the carrier image has been loaded (`image`) and the data file read (`data`);
the random nonce used by encryption is an explicit argument.  Steps, as in
the source: optionally encrypt, optionally wrap in the compression frame,
run `lsb::encode` — and then write the image that was loaded: line 64
discards the image returned by `lsb::encode`, and line 72 saves `image`
itself.  The returned value is the image that is written to the output
path. -/
def operationsEncode (gcm : GcmModel) (zlib : ZlibModel) (nonce : List Nat)
    (data : List Nat) (image : RgbImage) (key : Option (List Nat))
    (compress : Bool) : Except ApplicationError RgbImage :=
  let step1 : Except ApplicationError (List Nat) :=
    match key with
    | some k =>
      match keyToBytes k with
      | .ok keyBytes => .ok (aesEncrypt gcm nonce data keyBytes)
      | .error e => .error e
    | none => .ok data
  match step1 with
  | .error e => .error e
  | .ok data1 =>
    let data2 :=
      if compress then markerBytes ++ b64encode (zlib.compress data1) else data1
    match lsbEncode data2 image with
    | .error e => .error e
    | .ok _encodedImage => .ok image

/-- Model of `core::operations::decode` from `src/core/operations.rs`, after
the carrier image has been loaded: `lsb::decode`, then — if a key is given —
`aes::decrypt` (lines 102-106), then — if decompression was requested — the
marker check, base64 decode, zlib decompression and UTF-8 validation (lines
108-122), else the reverse marker check (lines 123-127).  The returned value
is the message written to the output path. -/
def operationsDecode (gcm : GcmModel) (zlib : ZlibModel) (image : RgbImage)
    (key : Option (List Nat)) (decompress : Bool) : RRes (List Nat) :=
  match lsbDecode image with
  | .error e => .err e
  | .ok decodedMessage0 =>
    let afterKey : RRes (List Nat) :=
      match key with
      | some k =>
        match keyToBytes k with
        | .error e => .err e
        | .ok keyBytes => aesDecrypt gcm decodedMessage0 keyBytes
      | none => .ok decodedMessage0
    match afterKey with
    | .err e => .err e
    | .panicked => .panicked
    | .ok decodedMessage =>
      if decompress then
        if markerBytes.isPrefixOf decodedMessage = false then
          .err (.DecodingError ("Decompression expected, but message is not compressed"))
        else
          match b64decode (decodedMessage.drop 11) with
          | none => .err (.DecodingError ("Base64 decoding failed"))
          | some compressedData =>
            match zlib.decompress compressedData with
            | none => .err .IoError
            | some decompressedData =>
              if validUtf8 decompressedData then .ok decompressedData
              else .err (.DecodingError ("UTF-8 decoding failed"))
      else if markerBytes.isPrefixOf decodedMessage then
        .err (.DecodingError ("Data is compressed but decompression was not requested"))
      else .ok decodedMessage

/-- Writing a bit list into the least significant bits of a sample list,
position by position from index `k`: a restatement of the mutation loop of
`lsb::encode` with the flat write index made explicit (the loop writes bit
`i` at flat index `writeIndex width i`, which equals `i`). -/
def writeBits : Nat → List Nat → List Nat → List Nat
  | _, s, [] => s
  | k, s, b :: bs => writeBits (k + 1) (s.set k ((s.getD k 0 &&& 0xFE) ||| b)) bs

/-- Structural form of the LSB write: each sample is combined with the
corresponding bit, and samples beyond the bit list are untouched. -/
def applyBits : List Nat → List Nat → List Nat
  | [], s => s
  | _ :: _, [] => []
  | b :: bs, c :: cs => ((c &&& 0xFE) ||| b) :: applyBits bs cs

/-- All bytes assembled by `lsb::decode` before the delimiter scan: one byte
per eight-bit chunk of the least-significant-bit stream of the image. -/
def decodeAssembled (image : RgbImage) : List Nat :=
  (chunks8 (image.samples.map (fun c => c &&& 1))).map byteFold

/-- A concrete instance of the cipher model (the identity cipher), used to
evaluate the pipeline at concrete inputs. -/
def trivGcm : GcmModel where
  enc := fun _ _ p => p
  dec := fun _ _ c => some c
  enc_byte_lt := fun _ _ _ h => h
  dec_enc := fun _ _ _ => rfl

/-- A concrete instance of the compressor model (the identity compressor),
used to evaluate the pipeline at concrete inputs. -/
def trivZlib : ZlibModel where
  compress := fun d => d
  decompress := fun d => some d

/-- UTF-8 bytes of the payload of Scenario A, the string Hello comma space
world bang. -/
def helloBytes : List Nat := [72, 101, 108, 108, 111, 44, 32, 119, 111, 114, 108, 100, 33]

/-- A blank 10 by 10 carrier (300 channel bytes, all zero). -/
def blankCarrier : RgbImage := ⟨10, 10, List.replicate 300 0⟩

/-- An 8 by 1 carrier: 24 channel bytes, which is exactly `(2 + 1) * 8`
available bits for a two-byte payload. -/
def boundaryCarrier : RgbImage := ⟨8, 1, List.replicate 24 0⟩

/-- A payload containing an interior NUL byte: the bytes of the string
a NUL b. -/
def nulData : List Nat := [97, 0, 98]

/-- A 14 by 1 blank carrier (42 channel bytes), large enough for `nulData`
and encode's capacity check. -/
def nulCarrier : RgbImage := ⟨14, 1, List.replicate 42 0⟩

/-- The message embedded by `operations::encode` for payload `[72, 105]`,
key bytes derived from any passphrase, an all-zero nonce, with the identity
cipher and identity compressor: the compression marker followed by the
base64 of the compressed encrypted text. -/
def framedMessage : List Nat :=
  markerBytes ++ b64encode (b64encode (List.replicate 12 0 ++ [72, 105]))

/-- A 112 by 1 carrier holding `framedMessage` in its least significant
bits (the carrier was blank, so the encoded samples are the bits
themselves). -/
def framedCarrier : RgbImage :=
  ⟨112, 1, bitsOfBytes (framedMessage ++ [0]) ++ List.replicate 16 0⟩

/-- A 40 by 1 carrier whose embedded message is exactly the compression
marker. -/
def markerCarrier : RgbImage :=
  ⟨40, 1, bitsOfBytes (markerBytes ++ [0]) ++ List.replicate 24 0⟩

/-- A 1 by 1 carrier: 3 channel bytes, insufficient for any payload. -/
def tinyCarrier : RgbImage := ⟨1, 1, List.replicate 3 0⟩

/-- A blank 5 by 5 carrier (75 channel bytes). -/
def smallCarrier : RgbImage := ⟨5, 5, List.replicate 75 0⟩

set_option maxRecDepth 8000

/-! ### Bit-level lemmas about the LSB write `(c & !1) | bit` -/

theorem setLsb_props : ∀ c < 256, ∀ b < 2,
    ((c &&& 0xFE) ||| b) &&& 1 = b ∧ ((c &&& 0xFE) ||| b) / 2 = c / 2 ∧
      ((c &&& 0xFE) ||| b) < 256 := by decide

theorem bitsOfByte_length (b : Nat) : (bitsOfByte b).length = 8 := by
  simp [bitsOfByte]

theorem bitsOfByte_lt (b : Nat) : ∀ x ∈ bitsOfByte b, x < 2 := by
  intro x hx
  simp only [bitsOfByte, List.mem_map, List.mem_reverse, List.mem_range] at hx
  obtain ⟨i, _, rfl⟩ := hx
  rw [Nat.and_one_is_mod]
  exact Nat.mod_lt _ (by omega)

theorem byteFold_bitsOfByte : ∀ b < 256, byteFold (bitsOfByte b) = b := by decide

theorem bitsOfBytes_nil : bitsOfBytes [] = [] := rfl

theorem bitsOfBytes_cons (b : Nat) (bs : List Nat) :
    bitsOfBytes (b :: bs) = bitsOfByte b ++ bitsOfBytes bs := by
  simp [bitsOfBytes]

theorem bitsOfBytes_length (bs : List Nat) : (bitsOfBytes bs).length = 8 * bs.length := by
  induction bs with
  | nil => rfl
  | cons b bs ih =>
    rw [bitsOfBytes_cons, List.length_append, bitsOfByte_length, ih, List.length_cons]
    omega

theorem bitsOfBytes_lt (bs : List Nat) : ∀ x ∈ bitsOfBytes bs, x < 2 := by
  induction bs with
  | nil => intro x hx; simp [bitsOfBytes] at hx
  | cons b bs ih =>
    rw [bitsOfBytes_cons]
    intro x hx
    rcases List.mem_append.1 hx with h | h
    · exact bitsOfByte_lt b x h
    · exact ih x h

/-! ### The mutation loop of `lsb::encode` -/

theorem writeIndex_eq (w i : Nat) : writeIndex w i = i := by
  unfold writeIndex
  rw [Nat.div_add_mod' (i / 3) w, Nat.div_add_mod' i 3]

theorem enum_foldl_writeBits (w : Nat) :
    ∀ (bits : List Nat) (k : Nat) (s : List Nat),
      (List.enumFrom k bits).foldl
        (fun s p =>
          s.set (writeIndex w p.1) ((s.getD (writeIndex w p.1) 0 &&& 0xFE) ||| p.2)) s
        = writeBits k s bits := by
  intro bits
  induction bits with
  | nil => intro k s; rfl
  | cons b bs ih =>
    intro k s
    have step : (List.enumFrom k (b :: bs)).foldl
        (fun s p =>
          s.set (writeIndex w p.1) ((s.getD (writeIndex w p.1) 0 &&& 0xFE) ||| p.2)) s
      = (List.enumFrom (k + 1) bs).foldl
        (fun s p =>
          s.set (writeIndex w p.1) ((s.getD (writeIndex w p.1) 0 &&& 0xFE) ||| p.2))
        (s.set (writeIndex w k) ((s.getD (writeIndex w k) 0 &&& 0xFE) ||| b)) := rfl
    rw [step, writeIndex_eq]
    rw [ih (k + 1) (s.set k ((s.getD k 0 &&& 0xFE) ||| b))]
    rfl

theorem writeBits_applyBits :
    ∀ (bs : List Nat) (k : Nat) (s : List Nat), k + bs.length ≤ s.length →
      writeBits k s bs = s.take k ++ applyBits bs (s.drop k) := by
  intro bs
  induction bs with
  | nil =>
    intro k s _
    simp [writeBits, applyBits]
  | cons b bs ih =>
    intro k s h
    have hk : k < s.length := by simp only [List.length_cons] at h; omega
    have hset : s.set k ((s.getD k 0 &&& 0xFE) ||| b)
        = s.take k ++ ((s.getD k 0 &&& 0xFE) ||| b) :: s.drop (k + 1) :=
      List.set_eq_take_cons_drop _ hk
    rw [writeBits, ih (k + 1) _ (by simp only [List.length_set, List.length_cons] at h ⊢; omega)]
    rw [hset]
    have htake : (s.take k ++ ((s.getD k 0 &&& 0xFE) ||| b) :: s.drop (k + 1)).take (k + 1)
        = s.take k ++ [(s.getD k 0 &&& 0xFE) ||| b] := by
      rw [List.take_append_eq_append_take]
      have hlen : (s.take k).length = k := List.length_take_of_le (le_of_lt hk)
      rw [List.take_of_length_le (by omega), hlen]
      norm_num
    have hdrop : (s.take k ++ ((s.getD k 0 &&& 0xFE) ||| b) :: s.drop (k + 1)).drop (k + 1)
        = s.drop (k + 1) := by
      rw [List.drop_append_eq_append_drop]
      have hlen : (s.take k).length = k := List.length_take_of_le (le_of_lt hk)
      rw [List.drop_of_length_le (by omega), hlen]
      norm_num
    rw [htake, hdrop]
    have hcons : s.drop k = s[k] :: s.drop (k + 1) := (List.getElem_cons_drop s k hk).symm
    rw [hcons]
    show s.take k ++ [(s.getD k 0 &&& 0xFE) ||| b] ++ applyBits bs (s.drop (k + 1))
        = s.take k ++ applyBits (b :: bs) (s[k] :: s.drop (k + 1))
    rw [List.getD_eq_getElem s 0 hk]
    simp [applyBits]

theorem isSufficientCapacity_iff (text : List Nat) (img : RgbImage) :
    isSufficientCapacity text img = true ↔ (text.length + 1) * 8 ≤ img.samples.length := by
  simp [isSufficientCapacity]

theorem lsbEncode_ok (data : List Nat) (img : RgbImage)
    (hcap : isSufficientCapacity (data ++ [0]) img = true) :
    lsbEncode data img
      = .ok ⟨img.width, img.height, applyBits (bitsOfBytes (data ++ [0])) img.samples⟩ := by
  have hlen : (bitsOfBytes (data ++ [0])).length ≤ img.samples.length := by
    rw [bitsOfBytes_length]
    rw [isSufficientCapacity_iff] at hcap
    simp at hcap ⊢
    omega
  simp only [lsbEncode, hcap, if_true]
  have henum : (bitsOfBytes (data ++ [0])).enum = List.enumFrom 0 (bitsOfBytes (data ++ [0])) :=
    rfl
  rw [henum, enum_foldl_writeBits img.width (bitsOfBytes (data ++ [0])) 0 img.samples,
    writeBits_applyBits _ 0 _ (by omega)]
  simp

theorem lsbEncode_err (data : List Nat) (img : RgbImage)
    (hcap : isSufficientCapacity (data ++ [0]) img = false) :
    lsbEncode data img = .error (.EncodingError ("Image too small to encode data")) := by
  simp [lsbEncode, hcap]

/-! ### Pointwise and stream descriptions of the written samples -/

theorem applyBits_map_lsb :
    ∀ (bs cs : List Nat), bs.length ≤ cs.length → (∀ b ∈ bs, b < 2) → (∀ c ∈ cs, c < 256) →
      (applyBits bs cs).map (fun c => c &&& 1)
        = bs ++ (cs.drop bs.length).map (fun c => c &&& 1) := by
  intro bs
  induction bs with
  | nil => intro cs _ _ _; simp [applyBits]
  | cons b bs ih =>
    intro cs hlen hb hc
    match cs with
    | [] => simp at hlen
    | c :: cs =>
      have hbyte : ((c &&& 0xFE) ||| b) &&& 1 = b :=
        (setLsb_props c (hc c (by simp)) b (hb b (by simp))).1
      show (((c &&& 0xFE) ||| b) :: applyBits bs cs).map (fun c => c &&& 1)
        = (b :: bs) ++ (cs.drop bs.length).map (fun c => c &&& 1)
      rw [List.map_cons, hbyte]
      rw [ih cs (by simpa using hlen) (fun x hx => hb x (by simp [hx]))
        (fun x hx => hc x (by simp [hx]))]
      rfl

theorem applyBits_getD_high :
    ∀ (bs cs : List Nat) (j : Nat), bs.length ≤ j →
      (applyBits bs cs).getD j 0 = cs.getD j 0 := by
  intro bs
  induction bs with
  | nil => intro cs j _; rfl
  | cons b bs ih =>
    intro cs j hj
    match cs with
    | [] => rfl
    | c :: cs =>
      match j with
      | 0 => simp at hj
      | j + 1 =>
        show (applyBits bs cs).getD j 0 = cs.getD j 0
        exact ih cs j (by simp only [List.length_cons] at hj; omega)

theorem applyBits_getD_div2 :
    ∀ (bs cs : List Nat) (j : Nat), (∀ b ∈ bs, b < 2) → (∀ c ∈ cs, c < 256) →
      (applyBits bs cs).getD j 0 / 2 = cs.getD j 0 / 2 := by
  intro bs
  induction bs with
  | nil => intro cs j _ _; rfl
  | cons b bs ih =>
    intro cs j hb hc
    match cs with
    | [] => rfl
    | c :: cs =>
      match j with
      | 0 =>
        exact (setLsb_props c (hc c (by simp)) b (hb b (by simp))).2.1
      | j + 1 =>
        exact ih cs j (fun x hx => hb x (by simp [hx])) (fun x hx => hc x (by simp [hx]))

/-! ### The chunking and delimiter scan of `lsb::decode` -/

theorem chunks8_nil : chunks8 [] = [] := rfl

theorem chunks8_append (l rest : List Nat) (h : l.length = 8) :
    chunks8 (l ++ rest) = l :: chunks8 rest := by
  rcases l with _ | ⟨b1, l⟩
  · simp at h
  rcases l with _ | ⟨b2, l⟩
  · simp at h
  rcases l with _ | ⟨b3, l⟩
  · simp at h
  rcases l with _ | ⟨b4, l⟩
  · simp at h
  rcases l with _ | ⟨b5, l⟩
  · simp at h
  rcases l with _ | ⟨b6, l⟩
  · simp at h
  rcases l with _ | ⟨b7, l⟩
  · simp at h
  rcases l with _ | ⟨b8, l⟩
  · simp at h
  rcases l with _ | ⟨b9, l⟩
  · rfl
  · simp only [List.length_cons] at h
    omega

theorem collectBytes_takeWhile (cs : List (List Nat)) :
    collectBytes cs = (cs.map byteFold).takeWhile (fun b => b != 0) := by
  induction cs with
  | nil => rfl
  | cons c cs ih =>
    by_cases h : byteFold c = 0
    · simp [collectBytes, List.takeWhile_cons, h]
    · have hbne : (byteFold c != 0) = true := by simpa using h
      simp [collectBytes, List.takeWhile_cons, h, hbne, ih]

theorem collect_chunks_roundtrip :
    ∀ (data tail : List Nat), (∀ b ∈ data, b < 256) → (∀ b ∈ data, b ≠ 0) →
      collectBytes (chunks8 (bitsOfBytes (data ++ [0]) ++ tail)) = data := by
  intro data
  induction data with
  | nil =>
    intro tail _ _
    have h0 : bitsOfBytes ([] ++ [0]) = bitsOfByte 0 := by simp [bitsOfBytes, bitsOfByte]
    rw [h0, chunks8_append _ _ (bitsOfByte_length 0)]
    have hz : byteFold (bitsOfByte 0) = 0 := byteFold_bitsOfByte 0 (by omega)
    simp [collectBytes, hz]
  | cons b bs ih =>
    intro tail hlt hnz
    have hstep : (b :: bs) ++ [0] = b :: (bs ++ [0]) := rfl
    rw [hstep, bitsOfBytes_cons, List.append_assoc,
      chunks8_append _ _ (bitsOfByte_length b)]
    have hb : byteFold (bitsOfByte b) = b := byteFold_bitsOfByte b (hlt b (by simp))
    have hbnz : b ≠ 0 := hnz b (by simp)
    simp only [collectBytes, hb, hbnz, if_false]
    rw [ih tail (fun x hx => hlt x (by simp [hx])) (fun x hx => hnz x (by simp [hx]))]

theorem capacity_bits_le (data : List Nat) (img : RgbImage)
    (hcap : isSufficientCapacity (data ++ [0]) img = true) :
    (bitsOfBytes (data ++ [0])).length ≤ img.samples.length := by
  rw [bitsOfBytes_length]
  rw [isSufficientCapacity_iff] at hcap
  simp at hcap ⊢
  omega

/-! ### Base64 lemmas -/

theorem b64d_b64e : ∀ s < 64, b64d (b64e s) = some s ∧ b64e s ≠ 61 := by decide

theorem b64_roundtrip : ∀ bs : List Nat, (∀ b ∈ bs, b < 256) →
    b64decode (b64encode bs) = some bs
  | [], _ => rfl
  | [b1], h => by
    have hb1 : b1 < 256 := h b1 (by simp)
    have h1 := b64d_b64e (b1 / 4) (by omega)
    have h2 := b64d_b64e (b1 % 4 * 16) (by omega)
    simp only [b64encode, b64decode, h1.1, h2.1]
    have hmod : b1 % 4 * 16 % 16 = 0 := by omega
    simp [hmod]
    omega
  | [b1, b2], h => by
    have hb1 : b1 < 256 := h b1 (by simp)
    have hb2 : b2 < 256 := h b2 (by simp)
    have h1 := b64d_b64e (b1 / 4) (by omega)
    have h2 := b64d_b64e (b1 % 4 * 16 + b2 / 16) (by omega)
    have h3 := b64d_b64e (b2 % 16 * 4) (by omega)
    simp only [b64encode, b64decode, h1.1, h2.1, h3.1]
    rw [if_neg h3.2]
    have hmod : b2 % 16 * 4 % 4 = 0 := by omega
    simp [hmod]
    omega
  | b1 :: b2 :: b3 :: rest, h => by
    have hb1 : b1 < 256 := h b1 (by simp)
    have hb2 : b2 < 256 := h b2 (by simp)
    have hb3 : b3 < 256 := h b3 (by simp)
    have h1 := b64d_b64e (b1 / 4) (by omega)
    have h2 := b64d_b64e (b1 % 4 * 16 + b2 / 16) (by omega)
    have h3 := b64d_b64e (b2 % 16 * 4 + b3 / 64) (by omega)
    have h4 := b64d_b64e (b3 % 64) (by omega)
    have ih := b64_roundtrip rest (fun x hx => h x (by simp [hx]))
    simp only [b64encode, b64decode, h1.1, h2.1, h3.1, h4.1, ih]
    rw [if_neg h3.2, if_neg h4.2]
    have e1 : b1 / 4 * 4 + (b1 % 4 * 16 + b2 / 16) / 16 = b1 := by omega
    have e2 : (b1 % 4 * 16 + b2 / 16) % 16 * 16 + (b2 % 16 * 4 + b3 / 64) / 4 = b2 := by omega
    have e3 : (b2 % 16 * 4 + b3 / 64) % 4 * 64 + b3 % 64 = b3 := by omega
    rw [e1, e2, e3]

/-! ### The claims -/

/-- Claim C1: the claimed end-to-end round trip fails on the code.
`operations::encode` succeeds on the Scenario A inputs (payload
Hello-comma-world-bang, blank 10 by 10 carrier, no key, no compression) but
the image it writes is the unmodified carrier it loaded (the value returned
by `lsb::encode` is discarded), so `operations::decode` on the written image
returns the empty message instead of the payload. -/
theorem c1_orchestrator_writes_original :
    operationsEncode trivGcm trivZlib (List.replicate 12 0) helloBytes blankCarrier none false
        = .ok blankCarrier ∧
    operationsDecode trivGcm trivZlib blankCarrier none false = .ok [] ∧
    ([] : List Nat) ≠ helloBytes :=
  ⟨by rfl, by rfl, by decide⟩

/-- Claim C2: contrary to the claimed stage order, `operations::decode`
applies AEAD decryption before compression unframing.  On a carrier whose
embedded message is the compression frame of the encryption of `[72, 105]`
(exactly what `operations::encode` builds with a key and compression),
extracting with the same key and decompress set fails with a
`DecryptionError` because the decrypter is fed the still-framed text, whose
base64 decoding fails at the colon of the marker; extracting the same
carrier without a key but with decompress set unframes fine and returns the
encrypted text, showing that the frame itself is well formed and only the
stage order is at fault. -/
theorem c2_decrypt_runs_before_unframe :
    operationsDecode trivGcm trivZlib framedCarrier (some [107]) true
        = .err (.DecryptionError ("Failed to decode base64 data")) ∧
    operationsDecode trivGcm trivZlib framedCarrier none true
        = .ok (b64encode (List.replicate 12 0 ++ [72, 105])) :=
  ⟨by rfl, by rfl⟩

/-- Claim C3: `aes::decrypt` does return a `DecryptionError` when base64
decoding fails (first conjunct, input a single colon byte), but on an input
whose base64 decoding succeeds with fewer than 12 bytes — here the empty
string, which decodes to an empty blob — `split_at(12)` panics instead of
returning a `DecryptionError`, for every cipher and key. -/
theorem c3_decrypt_short_blob_panics (gcm : GcmModel) (key : List Nat) :
    aesDecrypt gcm [58] key = .err (.DecryptionError ("Failed to decode base64 data")) ∧
    aesDecrypt gcm [] key = .panicked :=
  ⟨rfl, rfl⟩

/-- Claim C4, counterexample: the payload bytes a-NUL-b satisfy the capacity
predicate for a 14 by 1 carrier and are valid UTF-8, yet decoding the encoded
carrier returns just the byte a — the delimiter scan stops at the interior
NUL — so the round trip does not hold for all data containing a 0x00 byte. -/
theorem c4_nul_byte_counterexample :
    validUtf8 nulData = true ∧
    isSufficientCapacity (nulData ++ [0]) nulCarrier = true ∧
    (lsbEncode nulData nulCarrier).bind lsbDecode = .ok [97] ∧
    ([97] : List Nat) ≠ nulData :=
  ⟨by rfl, by rfl, by rfl, by decide⟩

/-- Claim C4, amended: the LSB codec round trip holds for every byte string
free of 0x00 bytes (valid UTF-8, bytes in `u8` range) whose delimited form
passes the capacity check that `lsb::encode` performs. -/
theorem c4_lsb_roundtrip (data : List Nat) (img : RgbImage)
    (hcap : isSufficientCapacity (data ++ [0]) img = true)
    (hd : ∀ b ∈ data, b < 256) (hnz : ∀ b ∈ data, b ≠ 0)
    (hs : ∀ c ∈ img.samples, c < 256) (hutf : validUtf8 data = true) :
    (lsbEncode data img).bind lsbDecode = .ok data := by
  rw [lsbEncode_ok data img hcap]
  show lsbDecode ⟨img.width, img.height, applyBits (bitsOfBytes (data ++ [0])) img.samples⟩
      = .ok data
  simp only [lsbDecode]
  rw [applyBits_map_lsb _ _ (capacity_bits_le data img hcap) (bitsOfBytes_lt _) hs]
  rw [collect_chunks_roundtrip data _ hd hnz, hutf]
  simp

/-- Witness for the amended Claim C4 at a concrete input. -/
theorem c4_lsb_roundtrip_witness :
    (lsbEncode [72, 105] smallCarrier).bind lsbDecode = .ok [72, 105] :=
  c4_lsb_roundtrip [72, 105] smallCarrier (by rfl) (by decide) (by decide) (by decide) (by rfl)

/-- Claim C5: the capacity oracle returns true exactly when
`(n + 1) * 8 <= width * height * 3` (first conjunct), but at the exact
boundary the encoder nevertheless fails: for the two-byte payload AB and an
8 by 1 carrier with exactly `(2 + 1) * 8 = 24` available bits, the oracle
accepts the payload yet `lsb::encode` returns an `EncodingError`, because it
re-applies the oracle to the already-delimited data, double-counting the
delimiter. -/
theorem c5_capacity_boundary :
    (∀ text img, RgbImage.Wf img →
      (isSufficientCapacity text img = true ↔
        (text.length + 1) * 8 ≤ img.width * img.height * 3)) ∧
    isSufficientCapacity [65, 66] boundaryCarrier = true ∧
    lsbEncode [65, 66] boundaryCarrier
      = .error (.EncodingError ("Image too small to encode data")) := by
  refine ⟨?_, rfl, rfl⟩
  intro text img hwf
  rw [isSufficientCapacity_iff, hwf.1]

/-- Claim C6: in `operations::decode` without a key, if decompression is
requested and the extracted message does not start with the COMPRESSED
marker, decoding fails with the decompression-expected `DecodingError`; and
if decompression is not requested but the marker is present, decoding fails
with the not-requested `DecodingError` — the framed text is never
returned. -/
theorem c6_marker_mismatch (gcm : GcmModel) (zlib : ZlibModel) (img : RgbImage)
    (msg : List Nat) (h : lsbDecode img = .ok msg) :
    (markerBytes.isPrefixOf msg = false →
      operationsDecode gcm zlib img none true
        = .err (.DecodingError ("Decompression expected, but message is not compressed"))) ∧
    (markerBytes.isPrefixOf msg = true →
      operationsDecode gcm zlib img none false
        = .err (.DecodingError ("Data is compressed but decompression was not requested"))) := by
  constructor
  · intro hp
    simp only [operationsDecode, h]
    simp [hp]
  · intro hp
    simp only [operationsDecode, h]
    simp [hp]

/-- Witness for Claim C6: a blank carrier extracts to the empty message
(no marker) and fails when decompression is requested; a carrier whose
message is exactly the marker fails when decompression is not requested. -/
theorem c6_marker_mismatch_witness :
    operationsDecode trivGcm trivZlib blankCarrier none true
        = .err (.DecodingError ("Decompression expected, but message is not compressed")) ∧
    operationsDecode trivGcm trivZlib markerCarrier none false
        = .err (.DecodingError ("Data is compressed but decompression was not requested")) :=
  ⟨(c6_marker_mismatch trivGcm trivZlib blankCarrier [] (by rfl)).1 (by rfl),
   (c6_marker_mismatch trivGcm trivZlib markerCarrier markerBytes (by rfl)).2 (by rfl)⟩

/-- Claim C7: `lsb::encode` either fails with an `EncodingError` (the
capacity check happens before any write, and the input carrier — which the
Rust function only borrows immutably — is never mutated), or returns an
image of the same dimensions in which every channel byte keeps the upper
seven bits of the corresponding input channel byte and every channel byte at
linear index at or beyond `(len(data) + 1) * 8` is unchanged. -/
theorem c7_encode_frame (data : List Nat) (img : RgbImage)
    (hs : ∀ c ∈ img.samples, c < 256) :
    (isSufficientCapacity (data ++ [0]) img = false →
      lsbEncode data img = .error (.EncodingError ("Image too small to encode data"))) ∧
    (isSufficientCapacity (data ++ [0]) img = true →
      ∃ out, lsbEncode data img = .ok out ∧
        out.width = img.width ∧ out.height = img.height ∧
        (∀ j, out.samples.getD j 0 / 2 = img.samples.getD j 0 / 2) ∧
        (∀ j, (data.length + 1) * 8 ≤ j → out.samples.getD j 0 = img.samples.getD j 0)) := by
  constructor
  · exact lsbEncode_err data img
  · intro hcap
    refine ⟨_, lsbEncode_ok data img hcap, rfl, rfl, ?_, ?_⟩
    · intro j
      exact applyBits_getD_div2 _ _ j (bitsOfBytes_lt _) hs
    · intro j hj
      apply applyBits_getD_high
      rw [bitsOfBytes_length]
      simp only [List.length_append, List.length_cons, List.length_nil]
      omega

/-- Witness for Claim C7: the error branch at a too-small carrier and the
frame properties at a successful concrete encode. -/
theorem c7_encode_frame_witness :
    lsbEncode helloBytes tinyCarrier
        = .error (.EncodingError ("Image too small to encode data")) ∧
    (∃ out, lsbEncode [72] smallCarrier = .ok out ∧
      out.width = smallCarrier.width ∧ out.height = smallCarrier.height ∧
      (∀ j, out.samples.getD j 0 / 2 = smallCarrier.samples.getD j 0 / 2) ∧
      (∀ j, (([72] : List Nat).length + 1) * 8 ≤ j →
        out.samples.getD j 0 = smallCarrier.samples.getD j 0)) :=
  ⟨(c7_encode_frame helloBytes tinyCarrier (by decide)).1 rfl,
   (c7_encode_frame [72] smallCarrier (by decide)).2 rfl⟩

/-- Claim C8: `lsb::decode` returns exactly the assembled bytes (one per
eight-bit chunk of the least-significant-bit stream, most significant bit
first) up to but not including the first zero byte — all of them if no zero
byte is assembled — and fails only when that byte list is not valid
UTF-8. -/
theorem c8_decode_delimiter (img : RgbImage) :
    lsbDecode img =
      if validUtf8 ((decodeAssembled img).takeWhile (fun b => b != 0)) then
        .ok ((decodeAssembled img).takeWhile (fun b => b != 0))
      else .error (.DecodingError ("Failed to decode message")) := by
  simp only [lsbDecode, decodeAssembled, collectBytes_takeWhile]

/-- Claim C9: `key_to_bytes` maps every passphrase of at most 32 bytes to
the 32-byte array consisting of the passphrase bytes followed by zero
padding (no truncation), and rejects every longer passphrase with an
error. -/
theorem c9_key_padding (key : List Nat) :
    (key.length ≤ 32 →
      keyToBytes key = .ok (key ++ List.replicate (32 - key.length) 0) ∧
      (key ++ List.replicate (32 - key.length) 0).length = 32 ∧
      (key ++ List.replicate (32 - key.length) 0).take key.length = key) ∧
    (32 < key.length → ∃ s, keyToBytes key = .error (.EncryptionError s)) := by
  constructor
  · intro h
    refine ⟨?_, ?_, ?_⟩
    · simp only [keyToBytes]
      rw [if_neg (by omega)]
    · simp only [List.length_append, List.length_replicate]
      omega
    · exact List.take_left key _
  · intro h
    exact ⟨_, by simp only [keyToBytes]; rw [if_pos h]⟩

/-- Witness for Claim C9 at a one-byte passphrase and a 33-byte
passphrase. -/
theorem c9_key_padding_witness :
    (keyToBytes [97] = .ok ([97] ++ List.replicate 31 0) ∧
      ([97] ++ List.replicate 31 0).length = 32 ∧
      ([97] ++ List.replicate 31 0).take 1 = [97]) ∧
    (∃ s, keyToBytes (List.replicate 33 0) = .error (.EncryptionError s)) :=
  ⟨(c9_key_padding [97]).1 (by decide),
   (c9_key_padding (List.replicate 33 0)).2 (by decide)⟩

/-- Claim C10: `key_to_bytes` is not injective — the distinct passphrases
a and a-NUL both derive the same 32-byte key — and consequently, for every
cipher model, nonce and plaintext, an AEAD blob encrypted under the key
derived from the first passphrase decrypts successfully under the key
derived from the second. -/
theorem c10_passphrase_collision (gcm : GcmModel) (nonce msg : List Nat)
    (hn : nonce.length = 12) (hnb : ∀ b ∈ nonce, b < 256)
    (hm : ∀ b ∈ msg, b < 256) (hv : validUtf8 msg = true) :
    ([97] : List Nat) ≠ [97, 0] ∧
    keyToBytes [97] = keyToBytes [97, 0] ∧
    (∀ kb1 kb2, keyToBytes [97] = .ok kb1 → keyToBytes [97, 0] = .ok kb2 →
      aesDecrypt gcm (aesEncrypt gcm nonce msg kb1) kb2 = .ok msg) := by
  refine ⟨by decide, rfl, ?_⟩
  intro kb1 kb2 h1 h2
  have hk : kb1 = kb2 := by
    have h12 : keyToBytes [97] = keyToBytes [97, 0] := rfl
    rw [h1, h2] at h12
    injection h12
  have hbytes : ∀ b ∈ nonce ++ gcm.enc kb1 nonce msg, b < 256 := by
    intro b hb
    rcases List.mem_append.1 hb with hb | hb
    · exact hnb b hb
    · exact gcm.enc_byte_lt kb1 nonce msg hm b hb
  have hlen : ¬ ((nonce ++ gcm.enc kb1 nonce msg).length < 12) := by
    simp [hn]
  have htake : (nonce ++ gcm.enc kb1 nonce msg).take 12 = nonce := by
    rw [← hn]; exact List.take_left _ _
  have hdrop : (nonce ++ gcm.enc kb1 nonce msg).drop 12 = gcm.enc kb1 nonce msg := by
    rw [← hn]; exact List.drop_left _ _
  simp only [aesEncrypt, aesDecrypt, b64_roundtrip _ hbytes]
  rw [if_neg hlen, htake, hdrop, ← hk, gcm.dec_enc kb1 nonce msg]
  simp [hv]

/-- Witness for Claim C10 with the identity cipher, an all-zero nonce and a
one-byte plaintext. -/
theorem c10_passphrase_collision_witness :
    aesDecrypt trivGcm
        (aesEncrypt trivGcm (List.replicate 12 0) [72] ([97] ++ List.replicate 31 0))
        ([97, 0] ++ List.replicate 30 0) = .ok [72] :=
  (c10_passphrase_collision trivGcm (List.replicate 12 0) [72] (by rfl) (by decide)
      (by decide) (by rfl)).2.2
    ([97] ++ List.replicate 31 0) ([97, 0] ++ List.replicate 30 0) (by rfl) (by rfl)

end Mindbender
